import Mathlib

/-!
Verification of the lung-nan-bot transaction parser and financial-health
scorer.  Texts are modelled as lists of characters (`Text`), monetary
amounts as exact rationals.  Each definition below is a shallow embedding
of the corresponding Python function in `src/parser.py`, `src/db.py` or
`src/app.py`, keeping the source's names and control flow.
-/

namespace LungNan

/-- A piece of text, modelled as its list of characters. -/
abbrev Text := List Char

/-- Characters of a string literal. -/
def chars (s : String) : Text := s.data

/-- `INCOME_KEYWORDS` from `src/parser.py`. -/
def INCOME_KEYWORDS : List Text :=
  ["รายรับ", "รับ", "ได้เงิน", "เงินเข้า", "ขายได้", "โบนัส", "เงินเดือน"].map chars

/-- `EXPENSE_KEYWORDS` from `src/parser.py`. -/
def EXPENSE_KEYWORDS : List Text :=
  ["รายจ่าย", "จ่าย", "ซื้อ", "โอน", "ค่า", "ผ่อน", "เติม"].map chars

/-- A category rule set: insertion-ordered mapping from category name to
keyword list, modelling a Python `dict[str, list[str]]`. -/
abbrev CatMap := List (String × List Text)

/-- `CATEGORY_MAP` from `src/parser.py` (built-in rules, declaration order). -/
def CATEGORY_MAP : CatMap :=
  [("อาหาร",
    ["ข้าว", "กาแฟ", "อาหาร", "ของกิน", "ชานม", "หมูกระทะ", "ก๋วยเตี๋ยว",
     "ชาบู", "บุฟเฟต์", "กิน", "คาเฟ่", "อาหารกลางวัน", "อาหารเย็น"].map chars),
   ("เดินทาง",
    ["เดินทาง", "ค่ารถ", "ค่าแท็กซี่", "แท็กซี่", "taxi", "grab", "bolt",
     "lineman", "มอไซ", "วิน", "รถเมล์", "รถไฟ", "bts", "mrt", "น้ำมัน",
     "เติมน้ำมัน", "ทางด่วน", "ค่าทางด่วน", "ค่าจอดรถ", "ที่จอดรถ"].map chars),
   ("บ้าน",
    ["ค่าเช่า", "ค่าไฟ", "ค่าน้ำ", "ไฟ", "น้ำ", "เน็ต", "อินเทอร์เน็ต",
     "ค่าโทร", "ค่าโทรศัพท์", "ค่าไฟฟ้า", "ค่าบ้าน"].map chars),
   ("ช้อปปิ้ง",
    ["เสื้อ", "รองเท้า", "ช้อป", "shopping", "ของใช้", "เครื่องสำอาง",
     "กระเป๋า", "ของแต่งบ้าน", "ช้อปปิ้ง"].map chars),
   ("สุขภาพ",
    ["หมอ", "ยา", "โรงพยาบาล", "สุขภาพ", "คลินิก", "ฟิตเนส", "ประกันสุขภาพ"].map chars),
   ("รายได้เสริม",
    ["ฟรีแลนซ์", "ขาย", "คอมมิชชั่น"].map chars)]

/-! ### Amount extraction (`parse_amount`, regex `(\d[\d,]*(?:\.\d+)?)`) -/

/-- A character matched by the regex class `[\d,]`: a digit or a comma. -/
def isNumChar (c : Char) : Bool := c.isDigit || c == ','

/-- Greedy match of `\d[\d,]*(?:\.\d+)?` anchored at the head of the list:
`some token` when the head is a digit, `none` otherwise. -/
def matchTokenAt : Text → Option Text
  | [] => none
  | c :: rest =>
    if c.isDigit then
      let body := rest.takeWhile isNumChar
      let tail := rest.dropWhile isNumChar
      match tail with
      | '.' :: t2 =>
        let frac := t2.takeWhile Char.isDigit
        if frac.isEmpty then some (c :: body) else some ((c :: body) ++ '.' :: frac)
      | _ => some (c :: body)
  else none

/-- Leftmost match of the amount regex: `re.search` scans positions left to
right; since the pattern starts with `\d`, a match starts at a digit. -/
def firstToken : Text → Option Text
  | [] => none
  | c :: rest =>
    match matchTokenAt (c :: rest) with
    | some t => some t
    | none => firstToken rest

/-- Value of a digit string (most significant first). -/
def digitsVal (ds : Text) : Nat := ds.foldl (fun n c => 10 * n + (c.toNat - 48)) 0

/-- Value of a matched token after `.replace(",", "")`: the decimal literal
`D.F` (fraction `F` of `k` digits, possibly absent) denotes the rational
`(value D * 10 ^ k + value F) / 10 ^ k`.  `float` of such a literal never
raises, so the `ValueError` branch of the source is unreachable; the float
value is modelled as an exact rational. -/
def tokenValue (t : Text) : ℚ :=
  let t2 := t.filter (fun c => c != ',')
  let intPart := t2.takeWhile (fun c => c != '.')
  let frac := (t2.dropWhile (fun c => c != '.')).drop 1
  mkRat (digitsVal (intPart ++ frac)) (10 ^ frac.length)

/-- `parse_amount` from `src/parser.py`: first numeric token's value,
rejecting values `≤ 0`. -/
def parse_amount (text : Text) : Option ℚ :=
  match firstToken text with
  | none => none
  | some t =>
    let amount := tokenValue t
    if amount ≤ 0 then none else some amount

/-! ### Substring containment (Python's `in` on strings) -/

/-- `needle` is an initial segment of `hay`. -/
def isPrefixText : Text → Text → Bool
  | [], _ => true
  | _ :: _, [] => false
  | a :: as, b :: bs => a == b && isPrefixText as bs

/-- Python's substring test `needle in hay`. -/
def containsSub : Text → Text → Bool
  | needle, [] => needle.isEmpty
  | needle, c :: rest => isPrefixText needle (c :: rest) || containsSub needle rest

/-! ### Type classification (`type_hint`, `detect_type`) -/

/-- Per-character lower-casing, modelling `str.lower()` (the keywords and
sign characters involved are case-stable under this model). -/
def lowerList (cs : Text) : Text := cs.map Char.toLower

/-- Python `str.strip()`: drop whitespace from both ends. -/
def stripWS (cs : Text) : Text :=
  ((cs.dropWhile Char.isWhitespace).reverse.dropWhile Char.isWhitespace).reverse

/-- `type_hint` from `src/parser.py`: sign prefix first, then keyword scan;
`none` models Python `None` (no determination). -/
def type_hint (text : Text) : Option String :=
  let lowered := lowerList text
  let has_income := INCOME_KEYWORDS.any (fun kw => containsSub kw lowered)
  let has_expense := EXPENSE_KEYWORDS.any (fun kw => containsSub kw lowered)
  if (stripWS lowered).head? = some '+' then some "income"
  else if (stripWS lowered).head? = some '-' then some "expense"
  else if has_income && has_expense then none
  else if has_income then some "income"
  else if has_expense then some "expense"
  else none

/-- `detect_type` from `src/parser.py`: `type_hint(text) or fallback_type`.
Python `or` falls through on the empty string as well as on `None`. -/
def detect_type (text : Text) (fallback_type : String) : String :=
  match type_hint text with
  | some t => if t.isEmpty then fallback_type else t
  | none => fallback_type

/-! ### Category resolution (`detect_category`) -/

/-- One keyword test from `detect_category`:
`keyword.lower() in lowered or keyword.lower().replace(" ", "") in compact`. -/
def kwMatches (kw lowered compact : Text) : Bool :=
  containsSub (lowerList kw) lowered ||
    containsSub ((lowerList kw).filter (fun c => c != ' ')) compact

/-- The `for category, keywords in active_map.items()` loop of
`detect_category`: first matching rule wins, else the type-derived default. -/
def detect_categoryWith (text : Text) (txn_type : String) : CatMap → String
  | [] => if txn_type = "income" then "รายรับทั่วไป" else "รายจ่ายทั่วไป"
  | (category, keywords) :: rest =>
    let lowered := lowerList text
    let compact := lowered.filter (fun c => c != ' ')
    if keywords.any (fun kw => kwMatches kw lowered compact) then category
    else detect_categoryWith text txn_type rest

/-- `detect_category` from `src/parser.py`.  `active_map = category_map or
CATEGORY_MAP`: Python `or` also rejects an *empty* dict (falsy), not just
`None`. -/
def detect_category (text : Text) (txn_type : String) (category_map : Option CatMap) : String :=
  let active_map :=
    match category_map with
    | some m => if m.isEmpty then CATEGORY_MAP else m
    | none => CATEGORY_MAP
  detect_categoryWith text txn_type active_map

/-! ### Note normalization (`clean_note`) -/

/-- `re.sub(r"\s+", " ", text)`: each maximal whitespace run becomes one space. -/
def squeezeWS : Text → Text
  | [] => []
  | [c] => if c.isWhitespace then [' '] else [c]
  | c1 :: c2 :: rest =>
    if c1.isWhitespace && c2.isWhitespace then squeezeWS (c2 :: rest)
    else if c1.isWhitespace then ' ' :: squeezeWS (c2 :: rest)
    else c1 :: squeezeWS (c2 :: rest)

/-- `clean_note` from `src/parser.py`: collapse whitespace, strip, truncate
to 120 characters. -/
def clean_note (text : Text) : Text := (stripWS (squeezeWS text)).take 120

/-! ### Entry splitting (`split_entries`, regex `(?:\n|,|;| และ | กับ )`) -/

/-- `text.replace("，", ",")`. -/
def normalizeCommas (cs : Text) : Text := cs.map (fun c => if c = '，' then ',' else c)

/-- `re.split` over the separator alternation: at each position the
alternatives `\n`, `,`, `;`, `" และ "`, `" กับ "` are tried in order; a match
ends the current fragment.  `acc` holds the current fragment reversed. -/
def splitRawAux : Text → Text → List Text
  | acc, [] => [acc.reverse]
  | acc, '\n' :: rest => acc.reverse :: splitRawAux [] rest
  | acc, ',' :: rest => acc.reverse :: splitRawAux [] rest
  | acc, ';' :: rest => acc.reverse :: splitRawAux [] rest
  | acc, ' ' :: 'แ' :: 'ล' :: 'ะ' :: ' ' :: rest => acc.reverse :: splitRawAux [] rest
  | acc, ' ' :: 'ก' :: 'ั' :: 'บ' :: ' ' :: rest => acc.reverse :: splitRawAux [] rest
  | acc, c :: rest => splitRawAux (c :: acc) rest

/-- `SPLIT_PATTERN.split(normalized)`. -/
def splitRaw (cs : Text) : List Text := splitRawAux [] cs

/-- `part.strip(" -•\t")`. -/
def isStripChar (c : Char) : Bool := c == ' ' || c == '-' || c == '•' || c == '\t'

/-- Strip the characters of `" -•\t"` from both ends of a fragment. -/
def stripEntry (cs : Text) : Text :=
  ((cs.dropWhile isStripChar).reverse.dropWhile isStripChar).reverse

/-- `split_entries` from `src/parser.py`. -/
def split_entries (text : Text) : List Text :=
  ((splitRaw (normalizeCommas text)).map stripEntry).filter (fun part => !part.isEmpty)

/-! ### Message-level type inference (`infer_global_type`) -/

/-- `infer_global_type` from `src/parser.py`: `hints` are the non-`None`
fragment hints; `hints.dedup` models `set(hints)` (only its cardinality is
used). -/
def infer_global_type (text : Text) : Option String :=
  let hints := (split_entries text).filterMap type_hint
  let uniq := hints.dedup
  if uniq.length = 1 then hints.head?
  else if 1 < uniq.length then none
  else type_hint text

/-! ### The extraction pipeline (`parse_single_transaction`, `parse_transactions`) -/

/-- `ParsedTransaction` from `src/parser.py`. -/
structure ParsedTransaction where
  txn_type : String
  amount : ℚ
  category : String
  note : Text
deriving DecidableEq

/-- The expression `fallback_type or "expense"` of `parse_single_transaction`:
Python `or` also replaces an empty string (falsy) by `"expense"`. -/
def resolve_fallback (fallback_type : Option String) : String :=
  match fallback_type with
  | some s => if s.isEmpty then "expense" else s
  | none => "expense"

/-- `parse_single_transaction` from `src/parser.py`. -/
def parse_single_transaction (text : Text) (fallback_type : Option String)
    (category_map : Option CatMap) : Option ParsedTransaction :=
  match parse_amount text with
  | none => none
  | some amount =>
    let txn_type := detect_type text (resolve_fallback fallback_type)
    let category := detect_category text txn_type category_map
    let note := clean_note text
    some ⟨txn_type, amount, category, note⟩

/-- `entry_fallback = global_type if type_hint(entry) is None else None`. -/
def entry_fallback (global_type : Option String) (entry : Text) : Option String :=
  if type_hint entry = none then global_type else none

/-- The per-fragment loop of `parse_transactions`: fragments whose parse
fails are silently dropped. -/
def per_fragment_pass (text : Text) (category_map : Option CatMap) : List ParsedTransaction :=
  let global_type := infer_global_type text
  (split_entries text).filterMap
    (fun entry => parse_single_transaction entry (entry_fallback global_type entry) category_map)

/-- `parse_transactions` from `src/parser.py`: per-fragment pass, then the
whole-message retry when it produced nothing. -/
def parse_transactions (text : Text) (category_map : Option CatMap) : List ParsedTransaction :=
  if (split_entries text).isEmpty then []
  else
    let parsed_list := per_fragment_pass text category_map
    if !parsed_list.isEmpty then parsed_list
    else
      match parse_single_transaction text none category_map with
      | some single => [single]
      | none => []

/-! ### Custom category merging (`build_user_category_map` from `src/app.py`) -/

/-- Association-list lookup on a `CatMap` (observation function for the
dict model). -/
def lookupKW : CatMap → String → Option (List Text)
  | [], _ => none
  | (name, keywords) :: rest, target =>
    if name = target then some keywords else lookupKW rest target

/-- Python dict assignment `category_map[name] = keywords` on an
insertion-ordered dict: an existing key keeps its position and gets the new
value; a new key is appended. -/
def dictInsert (m : CatMap) (name : String) (keywords : List Text) : CatMap :=
  if (lookupKW m name).isSome then
    m.map (fun p => if p.1 = name then (name, keywords) else p)
  else m ++ [(name, keywords)]

/-- `build_user_category_map` from `src/app.py`.  The storage collaborator
`list_custom_categories(user_id)` is not part of the core sources; its
returned ordered `(name, keywords)` pairs are the `customs` parameter. -/
def build_user_category_map (customs : List (String × List Text)) : CatMap :=
  customs.foldl (fun m p => dictInsert m p.1 p.2) CATEGORY_MAP

/-! ### Financial health scoring (`financial_health` from `src/db.py`) -/

/-- The dictionary returned by `financial_health`.  The source's
`expense_ratio` entry is named `expense_pct` here. -/
structure HealthSnapshot where
  income_month : ℚ
  expense_month : ℚ
  balance_month : ℚ
  savings_rate : Option ℚ
  expense_pct : Option ℚ
  transaction_count_month : Nat
  top_expense_category : String
  top_expense_amount : ℚ
  score : String
  tip : String
deriving DecidableEq

/-- `financial_health` from `src/db.py`, abstracted over the monthly
aggregates the storage collaborator supplies (`income`, `expense`, row
`count`, and the top expense row `top`); `balance = income - expense` as in
`summary_range`.  `None` ratios are `Option.none`. -/
def financial_health (income expense : ℚ) (count : Nat) (top : Option (String × ℚ)) :
    HealthSnapshot :=
  let balance := income - expense
  let savings_rate : Option ℚ := if 0 < income then some (balance / income * 100) else none
  let expense_pct : Option ℚ := if 0 < income then some (expense / income * 100) else none
  let st : String × String :=
    if income ≤ 0 ∧ 0 < expense then
      ("ต้องระวัง", "เดือนนี้ยังไม่พบรายรับ แต่มีรายจ่าย ลองตั้งงบรายจ่ายต่อวัน")
    else
      match savings_rate with
      | none => ("ยังไม่มีข้อมูลพอ", "เริ่มบันทึกรายรับรายจ่ายต่อเนื่องก่อน เพื่อวิเคราะห์ให้แม่นขึ้น")
      | some rate =>
        if 30 ≤ rate then ("ดีมาก", "รักษาวินัยการออมต่อเนื่องได้เลย")
        else if 10 ≤ rate then ("ดี", "ลองลดหมวดรายจ่ายที่สูงสุดลงอีกเล็กน้อยเพื่อเพิ่มเงินออม")
        else if 0 ≤ rate then ("พอใช้", "เพิ่มเงินออมอัตโนมัติ 5-10% ของรายรับทุกครั้งที่เงินเข้า")
        else ("ต้องปรับ", "รายจ่ายมากกว่ารายรับ ควรลดค่าใช้จ่ายไม่จำเป็นและตั้งเพดานรายวัน")
  let tc : String × ℚ :=
    match top with
    | some p => (p.1, p.2)
    | none => ("ไม่มีข้อมูล", 0)
  ⟨income, expense, balance, savings_rate, expense_pct, count, tc.1, tc.2, st.1, st.2⟩

/-! ## Basic lemmas about substring containment -/

theorem isPrefixText_iff (n : Text) : ∀ h : Text, isPrefixText n h = true ↔ ∃ post, h = n ++ post := by
  induction n with
  | nil => intro h; simp [isPrefixText]
  | cons a as ih =>
    intro h
    cases h with
    | nil => simp [isPrefixText]
    | cons b bs =>
      simp only [isPrefixText, Bool.and_eq_true, beq_iff_eq, ih, List.cons_append,
        List.cons.injEq]
      constructor
      · rintro ⟨rfl, post, rfl⟩; exact ⟨post, rfl, rfl⟩
      · rintro ⟨post, rfl, rfl⟩; exact ⟨rfl, post, rfl⟩

theorem containsSub_iff (n : Text) : ∀ h : Text, containsSub n h = true ↔ ∃ pre post, h = pre ++ n ++ post := by
  intro h
  induction h with
  | nil =>
    simp only [containsSub, List.isEmpty_iff]
    constructor
    · rintro rfl; exact ⟨[], [], rfl⟩
    · rintro ⟨pre, post, hp⟩
      rcases List.append_eq_nil.mp hp.symm with ⟨h1, h2⟩
      exact (List.append_eq_nil.mp h1).2
  | cons c rest ih =>
    simp only [containsSub, Bool.or_eq_true, isPrefixText_iff, ih]
    constructor
    · rintro (⟨post, hp⟩ | ⟨pre, post, hp⟩)
      · exact ⟨[], post, by simpa using hp⟩
      · exact ⟨c :: pre, post, by simp [hp]⟩
    · rintro ⟨pre, post, hp⟩
      cases pre with
      | nil => exact Or.inl ⟨post, by simpa using hp⟩
      | cons x xs =>
        simp only [List.cons_append] at hp
        injection hp with h1 h2
        exact Or.inr ⟨xs, post, by rw [h2, List.append_assoc]⟩

/-- A keyword of `kws` occurs as a substring of `L`. -/
def hasKeyword (kws : List Text) (L : Text) : Prop :=
  ∃ kw ∈ kws, ∃ pre post, L = pre ++ kw ++ post

theorem any_containsSub_iff (kws : List Text) (L : Text) :
    kws.any (fun kw => containsSub kw L) = true ↔ hasKeyword kws L := by
  simp [List.any_eq_true, containsSub_iff, hasKeyword]

/-! ## Lemmas about `type_hint` and `detect_type` -/

theorem type_hint_cases (t : Text) :
    type_hint t = none ∨ type_hint t = some "income" ∨ type_hint t = some "expense" := by
  simp only [type_hint]
  split_ifs <;> simp

theorem type_hint_ne_some_empty (t : Text) : type_hint t ≠ some "" := by
  rcases type_hint_cases t with h | h | h <;> rw [h] <;> simp

theorem detect_type_mem (text : Text) (fb : String)
    (hfb : fb = "income" ∨ fb = "expense") :
    detect_type text fb = "income" ∨ detect_type text fb = "expense" := by
  unfold detect_type
  rcases type_hint_cases text with h | h | h <;> rw [h]
  · simpa using hfb
  · left; rfl
  · right; rfl

/-- C4.  The type classifier decides in priority order: a `+` sign on the
trimmed fragment forces income and a `-` sign forces expense regardless of
keywords; otherwise keyword evidence decides (both kinds present or neither
present gives no determination, exactly one kind decides); an indeterminate
hint resolves to the supplied fallback type (the pipeline supplies
`"expense"` when no other fallback is given). -/
theorem type_hint_sign_then_keywords (text : Text) (fb : String) :
    ((stripWS (lowerList text)).head? = some '+' → type_hint text = some "income") ∧
    ((stripWS (lowerList text)).head? = some '-' → type_hint text = some "expense") ∧
    ((stripWS (lowerList text)).head? ≠ some '+' →
     (stripWS (lowerList text)).head? ≠ some '-' →
      ((hasKeyword INCOME_KEYWORDS (lowerList text) ∧ hasKeyword EXPENSE_KEYWORDS (lowerList text) →
          type_hint text = none) ∧
       (hasKeyword INCOME_KEYWORDS (lowerList text) → ¬ hasKeyword EXPENSE_KEYWORDS (lowerList text) →
          type_hint text = some "income") ∧
       (¬ hasKeyword INCOME_KEYWORDS (lowerList text) → hasKeyword EXPENSE_KEYWORDS (lowerList text) →
          type_hint text = some "expense") ∧
       (¬ hasKeyword INCOME_KEYWORDS (lowerList text) → ¬ hasKeyword EXPENSE_KEYWORDS (lowerList text) →
          type_hint text = none))) ∧
    (type_hint text = none → detect_type text fb = fb) ∧
    (∀ t, type_hint text = some t → detect_type text fb = t) := by
  refine ⟨?_, ?_, ?_, ?_, ?_⟩
  · intro h; simp [type_hint, h]
  · intro h
    have h1 : (stripWS (lowerList text)).head? ≠ some '+' := by rw [h]; simp
    simp [type_hint, h, h1]
  · intro h1 h2
    have hI := any_containsSub_iff INCOME_KEYWORDS (lowerList text)
    have hE := any_containsSub_iff EXPENSE_KEYWORDS (lowerList text)
    cases hbI : INCOME_KEYWORDS.any (fun kw => containsSub kw (lowerList text)) <;>
      cases hbE : EXPENSE_KEYWORDS.any (fun kw => containsSub kw (lowerList text))
    · have hnI : ¬ hasKeyword INCOME_KEYWORDS (lowerList text) := by
        rw [← hI, hbI]; simp
      have hnE : ¬ hasKeyword EXPENSE_KEYWORDS (lowerList text) := by
        rw [← hE, hbE]; simp
      exact ⟨fun hc => absurd hc.1 hnI, fun hc => absurd hc hnI,
        fun _ hc => absurd hc hnE, fun _ _ => by simp [type_hint, h1, h2, hbI, hbE]⟩
    · have hnI : ¬ hasKeyword INCOME_KEYWORDS (lowerList text) := by
        rw [← hI, hbI]; simp
      have hyE : hasKeyword EXPENSE_KEYWORDS (lowerList text) := hE.mp hbE
      exact ⟨fun hc => absurd hc.1 hnI, fun hc => absurd hc hnI,
        fun _ _ => by simp [type_hint, h1, h2, hbI, hbE], fun _ hc => absurd hyE hc⟩
    · have hyI : hasKeyword INCOME_KEYWORDS (lowerList text) := hI.mp hbI
      have hnE : ¬ hasKeyword EXPENSE_KEYWORDS (lowerList text) := by
        rw [← hE, hbE]; simp
      exact ⟨fun hc => absurd hc.2 hnE, fun _ _ => by simp [type_hint, h1, h2, hbI, hbE],
        fun hc => absurd hyI hc, fun hc => absurd hyI hc⟩
    · have hyI : hasKeyword INCOME_KEYWORDS (lowerList text) := hI.mp hbI
      have hyE : hasKeyword EXPENSE_KEYWORDS (lowerList text) := hE.mp hbE
      exact ⟨fun _ => by simp [type_hint, h1, h2, hbI, hbE],
        fun _ hc => absurd hyE hc, fun hc => absurd hyI hc, fun hc => absurd hyI hc⟩
  · intro h; simp [detect_type, h]
  · intro t ht
    have hne : t ≠ "" := by
      intro he; rw [he] at ht; exact type_hint_ne_some_empty text ht
    simp [detect_type, ht, String.isEmpty_iff, hne]

/-- Witness for C4: the sign branch of `type_hint` at a fragment that also
contains an income keyword. -/
theorem type_hint_sign_then_keywords_witness :
    (stripWS (lowerList (chars "+500 ขายได้"))).head? = some '+' ∧
      type_hint (chars "+500 ขายได้") = some "income" :=
  ⟨by decide, (type_hint_sign_then_keywords (chars "+500 ขายได้") "expense").1 (by decide)⟩

/-! ## Amount extraction: characterization of `parse_amount` (C5) -/

theorem noDigit_firstToken (text : Text) (h : ∀ c ∈ text, c.isDigit = false) :
    firstToken text = none := by
  induction text with
  | nil => rfl
  | cons c rest ih =>
    have hc : c.isDigit = false := h c (List.mem_cons_self c rest)
    have ihr := ih (fun d hd => h d (List.mem_cons_of_mem c hd))
    simp [firstToken, matchTokenAt, hc, ihr]

theorem parse_amount_pos (text : Text) (a : ℚ) (h : parse_amount text = some a) : 0 < a := by
  unfold parse_amount at h
  cases hft : firstToken text with
  | none => rw [hft] at h; exact absurd h (by simp)
  | some t =>
    rw [hft] at h
    simp only at h
    by_cases hle : tokenValue t ≤ 0
    · rw [if_pos hle] at h; exact absurd h (by simp)
    · rw [if_neg hle] at h
      have : tokenValue t = a := by injection h
      rw [← this]; exact lt_of_not_le hle

/-- C5.  `parse_amount` returns the value of the first numeric token of the
fragment (later numbers are irrelevant: the result is a function of the
first token alone), and returns `none` exactly when no token exists or its
value is `≤ 0`; in this model decimal parsing of a matched token cannot
fail.  In particular a digit-free fragment and a fragment whose first
numeric value is `0` both yield `none`. -/
theorem parse_amount_first_token (text : Text) :
    (∀ t, firstToken text = some t → 0 < tokenValue t →
      parse_amount text = some (tokenValue t)) ∧
    (parse_amount text = none ↔
      firstToken text = none ∨ ∃ t, firstToken text = some t ∧ tokenValue t ≤ 0) ∧
    ((∀ c ∈ text, c.isDigit = false) → parse_amount text = none) ∧
    (∀ t, firstToken text = some t → tokenValue t = 0 → parse_amount text = none) := by
  refine ⟨?_, ?_, ?_, ?_⟩
  · intro t ht hpos
    simp [parse_amount, ht, not_le.mpr hpos]
  · unfold parse_amount
    cases hft : firstToken text with
    | none => simp
    | some t =>
      simp only [Option.some.injEq, reduceCtorEq, false_or]
      by_cases hle : tokenValue t ≤ 0
      · simp [hle]
      · simp [hle]
  · intro h
    simp [parse_amount, noDigit_firstToken text h]
  · intro t ht h0
    simp [parse_amount, ht, h0]

/-- Witness for C5 at the fragment `"ค่าข้าว 65"`. -/
theorem parse_amount_first_token_witness :
    firstToken (chars "ค่าข้าว 65") = some (chars "65") ∧
      (0 : ℚ) < tokenValue (chars "65") ∧
      parse_amount (chars "ค่าข้าว 65") = some (tokenValue (chars "65")) :=
  ⟨by decide, by decide,
    (parse_amount_first_token (chars "ค่าข้าว 65")).1 (chars "65") (by decide) (by decide)⟩

/-! ## `detect_category` and the empty rule map (C10) -/

/-- C10.  Passing an explicitly empty rule map to `detect_category` behaves
exactly like passing no map: Python's `or` tests truthiness, an empty dict
is falsy, so resolution falls back to the built-in `CATEGORY_MAP` and an
empty custom map can never disable the built-in rules. -/
theorem detect_category_empty_map (text : Text) (txn_type : String) :
    detect_category text txn_type (some []) = detect_category text txn_type none ∧
    detect_category text txn_type none = detect_categoryWith text txn_type CATEGORY_MAP ∧
    ∀ m : CatMap, detect_category text txn_type (some m) =
      detect_categoryWith text txn_type (if m.isEmpty then CATEGORY_MAP else m) :=
  ⟨rfl, rfl, fun _ => rfl⟩

/-! ## Message-level type inference (C1) -/

/-- Counterexample to C1 as stated: at `"+รับ 1, จ่าย 2"` the fragments carry
two distinct hints, and the claim then demands the whole-message hint
(`some "income"`, thanks to the leading `+`), but `infer_global_type`
returns `none`. -/
theorem infer_global_type_counterexample :
    ((split_entries (chars "+รับ 1, จ่าย 2")).filterMap type_hint).dedup.length = 2 ∧
    type_hint (chars "+รับ 1, จ่าย 2") = some "income" ∧
    infer_global_type (chars "+รับ 1, จ่าย 2") = none := by decide

/-- C1 (amended).  If the fragments' local hints have exactly one distinct
value, `infer_global_type` returns it; if they have more than one distinct
value it returns `none` directly (no whole-message fallback); only when the
fragments yield no hint at all does it evaluate the hint of the whole raw
message, so it returns `none` exactly when the hints conflict or when there
is no hint and the whole message is also indeterminate. -/
theorem infer_global_type_characterization (text : Text) :
    (∀ h, ((split_entries text).filterMap type_hint).dedup = [h] →
      infer_global_type text = some h) ∧
    (2 ≤ ((split_entries text).filterMap type_hint).dedup.length →
      infer_global_type text = none) ∧
    (((split_entries text).filterMap type_hint) = [] →
      infer_global_type text = type_hint text) := by
  refine ⟨?_, ?_, ?_⟩
  · intro h hd
    have hlen : ((split_entries text).filterMap type_hint).dedup.length = 1 := by
      rw [hd]; rfl
    unfold infer_global_type
    rw [if_pos hlen]
    cases hH : (split_entries text).filterMap type_hint with
    | nil => rw [hH] at hd; simp at hd
    | cons a rest =>
      have ha : a ∈ ((split_entries text).filterMap type_hint).dedup :=
        List.mem_dedup.mpr (by rw [hH]; exact List.mem_cons_self a rest)
      rw [hd] at ha
      have : a = h := by simpa using ha
      simp [this]
  · intro h2
    unfold infer_global_type
    rw [if_neg (by omega), if_pos (by omega)]
  · intro h0
    unfold infer_global_type
    rw [h0]
    simp

/-- Witness for C1 (amended) at the single-fragment message `"รับ 100"`. -/
theorem infer_global_type_characterization_witness :
    ((split_entries (chars "รับ 100")).filterMap type_hint).dedup = ["income"] ∧
      infer_global_type (chars "รับ 100") = some "income" :=
  ⟨by decide, (infer_global_type_characterization (chars "รับ 100")).1 "income" (by decide)⟩

/-! ## Financial health scoring (C2, C6) -/

/-- C2.  The score label is assigned by thresholds evaluated in order:
no income with expenses gives "needs attention" (ต้องระวัง); no income and
no expenses gives "insufficient data" (ยังไม่มีข้อมูลพอ); otherwise the
savings rate `((income - expense) / income) * 100` decides with weak
inequalities, so rate exactly 30 is "excellent" (ดีมาก), exactly 10 is
"good" (ดี) and exactly 0 is "fair" (พอใช้). -/
theorem financial_health_score_thresholds (income expense : ℚ) (count : Nat)
    (top : Option (String × ℚ)) :
    (income ≤ 0 → 0 < expense →
      (financial_health income expense count top).score = "ต้องระวัง") ∧
    (income ≤ 0 → expense ≤ 0 →
      (financial_health income expense count top).score = "ยังไม่มีข้อมูลพอ") ∧
    (0 < income → 30 ≤ (income - expense) / income * 100 →
      (financial_health income expense count top).score = "ดีมาก") ∧
    (0 < income → (income - expense) / income * 100 < 30 →
      10 ≤ (income - expense) / income * 100 →
      (financial_health income expense count top).score = "ดี") ∧
    (0 < income → (income - expense) / income * 100 < 10 →
      0 ≤ (income - expense) / income * 100 →
      (financial_health income expense count top).score = "พอใช้") ∧
    (0 < income → (income - expense) / income * 100 < 0 →
      (financial_health income expense count top).score = "ต้องปรับ") := by
  refine ⟨?_, ?_, ?_, ?_, ?_, ?_⟩
  · intro h1 h2
    simp [financial_health, h1, h2, not_lt.mpr h1]
  · intro h1 h2
    simp [financial_health, not_lt.mpr h1, not_lt.mpr h2]
  · intro h1 h2
    simp [financial_health, h1, not_le.mpr h1, h2]
  · intro h1 h2 h3
    simp [financial_health, h1, not_le.mpr h1, not_le.mpr h2, h3]
  · intro h1 h2 h3
    simp [financial_health, h1, not_le.mpr h1, not_le.mpr h2,
      not_le.mpr (lt_trans h2 (show (10 : ℚ) < 30 by norm_num)), h3]
  · intro h1 h2
    simp [financial_health, h1, not_le.mpr h1, not_le.mpr h2,
      not_le.mpr (lt_trans h2 (show (0 : ℚ) < 30 by norm_num)),
      not_le.mpr (lt_trans h2 (show (0 : ℚ) < 10 by norm_num))]

/-- Witness for C2 at the exact savings-rate boundaries 30, 10 and 0, plus
the two no-income branches. -/
theorem financial_health_score_thresholds_witness :
    (financial_health 100 70 0 none).score = "ดีมาก" ∧
    (financial_health 100 90 0 none).score = "ดี" ∧
    (financial_health 100 100 0 none).score = "พอใช้" ∧
    (financial_health 100 101 0 none).score = "ต้องปรับ" ∧
    (financial_health 0 5 0 none).score = "ต้องระวัง" ∧
    (financial_health 0 0 0 none).score = "ยังไม่มีข้อมูลพอ" :=
  ⟨(financial_health_score_thresholds 100 70 0 none).2.2.1 (by norm_num) (by norm_num),
   (financial_health_score_thresholds 100 90 0 none).2.2.2.1 (by norm_num) (by norm_num)
     (by norm_num),
   (financial_health_score_thresholds 100 100 0 none).2.2.2.2.1 (by norm_num) (by norm_num)
     (by norm_num),
   (financial_health_score_thresholds 100 101 0 none).2.2.2.2.2 (by norm_num) (by norm_num),
   (financial_health_score_thresholds 0 5 0 none).1 (by norm_num) (by norm_num),
   (financial_health_score_thresholds 0 0 0 none).2.1 (by norm_num) (by norm_num)⟩

/-- C6.  The savings rate and the expense ratio are numeric exactly when
income is positive, with the values `balance/income*100` and
`expense/income*100`; when income is not positive both are `none` (never
the number 0), and zero income with zero expenses yields the
"insufficient data" label with both ratios undefined. -/
theorem financial_health_ratios_defined_iff (income expense : ℚ) (count : Nat)
    (top : Option (String × ℚ)) :
    (0 < income →
      (financial_health income expense count top).savings_rate =
        some ((income - expense) / income * 100) ∧
      (financial_health income expense count top).expense_pct =
        some (expense / income * 100)) ∧
    (income ≤ 0 →
      (financial_health income expense count top).savings_rate = none ∧
      (financial_health income expense count top).expense_pct = none) ∧
    ((financial_health 0 0 count top).score = "ยังไม่มีข้อมูลพอ" ∧
      (financial_health 0 0 count top).savings_rate = none ∧
      (financial_health 0 0 count top).expense_pct = none) := by
  refine ⟨?_, ?_, ?_⟩
  · intro h
    exact ⟨by simp [financial_health, h], by simp [financial_health, h]⟩
  · intro h
    exact ⟨by simp [financial_health, not_lt.mpr h], by simp [financial_health, not_lt.mpr h]⟩
  · refine ⟨by simp [financial_health], by simp [financial_health], by simp [financial_health]⟩

/-- Witness for C6 at a month with income 100 and expenses 40, and at the
empty month. -/
theorem financial_health_ratios_defined_iff_witness :
    ((financial_health 100 40 0 none).savings_rate = some ((100 - 40) / 100 * 100) ∧
      (financial_health 100 40 0 none).expense_pct = some (40 / 100 * 100)) ∧
    ((financial_health 0 0 0 none).score = "ยังไม่มีข้อมูลพอ" ∧
      (financial_health 0 0 0 none).savings_rate = none ∧
      (financial_health 0 0 0 none).expense_pct = none) :=
  ⟨(financial_health_ratios_defined_iff 100 40 0 none).1 (by norm_num),
   (financial_health_ratios_defined_iff 0 0 0 none).2.2⟩

/-! ## The two-pass fallback of `parse_transactions` (C3)

The key fact: when `split_entries` yields no fragment at all, the message
contains no digit, so the whole-message retry could not succeed either. -/

theorem mem_dropWhile_of_not {p : Char → Bool} {c : Char} :
    ∀ {l : Text}, c ∈ l → p c = false → c ∈ l.dropWhile p := by
  intro l
  induction l with
  | nil => intro h _; cases h
  | cons x xs ih =>
    intro hc hp
    by_cases hx : p x = true
    · rw [List.dropWhile_cons_of_pos hx]
      rcases List.mem_cons.mp hc with rfl | hm
      · rw [hx] at hp; cases hp
      · exact ih hm hp
    · rw [List.dropWhile_cons_of_neg hx]
      exact hc

theorem mem_stripEntry {c : Char} {part : Text} (hc : c ∈ part)
    (hp : isStripChar c = false) : c ∈ stripEntry part := by
  unfold stripEntry
  rw [List.mem_reverse]
  exact mem_dropWhile_of_not (List.mem_reverse.mpr (mem_dropWhile_of_not hc hp)) hp

theorem splitRawAux_digit (a : Char) (hd : a.isDigit = true) :
    ∀ acc cs : Text, a ∈ acc ∨ a ∈ cs → ∃ part ∈ splitRawAux acc cs, a ∈ part := by
  intro acc cs
  induction acc, cs using splitRawAux.induct with
  | case1 acc =>
    intro h
    rcases h with ha | ha
    · exact ⟨acc.reverse, by simp [splitRawAux], List.mem_reverse.mpr ha⟩
    · cases ha
  | case2 acc rest ih =>
    intro h
    simp only [splitRawAux]
    rcases h with ha | ha
    · exact ⟨acc.reverse, List.mem_cons_self _ _, List.mem_reverse.mpr ha⟩
    · rcases List.mem_cons.mp ha with rfl | hm
      · exact absurd hd (by decide)
      · obtain ⟨part, hp, hap⟩ := ih (Or.inr hm)
        exact ⟨part, List.mem_cons_of_mem _ hp, hap⟩
  | case3 acc rest ih =>
    intro h
    simp only [splitRawAux]
    rcases h with ha | ha
    · exact ⟨acc.reverse, List.mem_cons_self _ _, List.mem_reverse.mpr ha⟩
    · rcases List.mem_cons.mp ha with rfl | hm
      · exact absurd hd (by decide)
      · obtain ⟨part, hp, hap⟩ := ih (Or.inr hm)
        exact ⟨part, List.mem_cons_of_mem _ hp, hap⟩
  | case4 acc rest ih =>
    intro h
    simp only [splitRawAux]
    rcases h with ha | ha
    · exact ⟨acc.reverse, List.mem_cons_self _ _, List.mem_reverse.mpr ha⟩
    · rcases List.mem_cons.mp ha with rfl | hm
      · exact absurd hd (by decide)
      · obtain ⟨part, hp, hap⟩ := ih (Or.inr hm)
        exact ⟨part, List.mem_cons_of_mem _ hp, hap⟩
  | case5 acc rest ih =>
    intro h
    simp only [splitRawAux]
    rcases h with ha | ha
    · exact ⟨acc.reverse, List.mem_cons_self _ _, List.mem_reverse.mpr ha⟩
    · simp only [List.mem_cons] at ha
      rcases ha with rfl | rfl | rfl | rfl | rfl | hm
      · exact absurd hd (by decide)
      · exact absurd hd (by decide)
      · exact absurd hd (by decide)
      · exact absurd hd (by decide)
      · exact absurd hd (by decide)
      · obtain ⟨part, hp, hap⟩ := ih (Or.inr hm)
        exact ⟨part, List.mem_cons_of_mem _ hp, hap⟩
  | case6 acc rest ih =>
    intro h
    simp only [splitRawAux]
    rcases h with ha | ha
    · exact ⟨acc.reverse, List.mem_cons_self _ _, List.mem_reverse.mpr ha⟩
    · simp only [List.mem_cons] at ha
      rcases ha with rfl | rfl | rfl | rfl | rfl | hm
      · exact absurd hd (by decide)
      · exact absurd hd (by decide)
      · exact absurd hd (by decide)
      · exact absurd hd (by decide)
      · exact absurd hd (by decide)
      · obtain ⟨part, hp, hap⟩ := ih (Or.inr hm)
        exact ⟨part, List.mem_cons_of_mem _ hp, hap⟩
  | case7 acc c rest h1 h2 h3 h4 h5 ih =>
    intro h
    rw [splitRawAux.eq_7 acc c rest h1 h2 h3
      (fun r hc hr => h4 r hc hr) (fun r hc hr => h5 r hc hr)]
    apply ih
    rcases h with ha | ha
    · exact Or.inl (List.mem_cons_of_mem _ ha)
    · rcases List.mem_cons.mp ha with rfl | hm
      · exact Or.inl (List.mem_cons_self _ _)
      · exact Or.inr hm

theorem split_entries_ne_nil_of_digit {text : Text} {a : Char} (ha : a ∈ text)
    (hd : a.isDigit = true) : split_entries text ≠ [] := by
  have hne : a ≠ '，' := by
    intro h; rw [h] at hd; cases hd
  have hnorm : a ∈ normalizeCommas text := by
    unfold normalizeCommas
    have : (if a = '，' then ',' else a) = a := if_neg hne
    exact this ▸ List.mem_map_of_mem _ ha
  obtain ⟨part, hpart, hmem⟩ :=
    splitRawAux_digit a hd [] (normalizeCommas text) (Or.inr hnorm)
  have hstrip : isStripChar a = false := by
    by_contra h
    have : isStripChar a = true := by
      cases hsc : isStripChar a
      · exact absurd hsc h
      · rfl
    rcases (by simpa [isStripChar] using this :
        ((a = ' ' ∨ a = '-') ∨ a = '•') ∨ a = '\t') with
      ((rfl | rfl) | rfl) | rfl <;> cases hd
  have hin : a ∈ stripEntry part := mem_stripEntry hmem hstrip
  have hnonempty : (stripEntry part).isEmpty = false := by
    cases hse : stripEntry part
    · rw [hse] at hin; cases hin
    · rfl
  have hmem2 : stripEntry part ∈ split_entries text := by
    unfold split_entries splitRaw
    exact List.mem_filter.mpr ⟨List.mem_map_of_mem _ hpart, by rw [hnonempty]; rfl⟩
  exact List.ne_nil_of_mem hmem2

theorem parse_amount_none_of_split_empty {text : Text}
    (h : split_entries text = []) : parse_amount text = none := by
  have hnd : ∀ c ∈ text, c.isDigit = false := by
    intro c hc
    cases hdc : c.isDigit
    · rfl
    · exact absurd h (split_entries_ne_nil_of_digit hc hdc)
  simp [parse_amount, noDigit_firstToken text hnd]

/-- C3.  If the per-fragment pass yields at least one transaction, its
result is returned unchanged; if it yields none, the result is exactly what
one retry of `parse_single_transaction` on the whole raw message gives (a
one-element list on success, the empty list on failure — in the degenerate
case where splitting yields no fragment at all, the message has no digits
and the retry could not succeed either, so returning `[]` agrees).  Hence a
message from which `parse_single_transaction` extracts a transaction is
never lost. -/
theorem parse_transactions_two_pass (text : Text) (cm : Option CatMap) :
    (per_fragment_pass text cm ≠ [] →
      parse_transactions text cm = per_fragment_pass text cm) ∧
    (per_fragment_pass text cm = [] →
      (∀ p, parse_single_transaction text none cm = some p →
        parse_transactions text cm = [p]) ∧
      (parse_single_transaction text none cm = none →
        parse_transactions text cm = [])) ∧
    (parse_single_transaction text none cm ≠ none → parse_transactions text cm ≠ []) := by
  by_cases hsp : (split_entries text).isEmpty = true
  · have hnil : split_entries text = [] := List.isEmpty_iff.mp hsp
    have hper : per_fragment_pass text cm = [] := by
      simp [per_fragment_pass, hnil]
    have hsingle : parse_single_transaction text none cm = none := by
      unfold parse_single_transaction
      rw [parse_amount_none_of_split_empty hnil]
    have hout : parse_transactions text cm = [] := by
      simp [parse_transactions, hsp]
    exact ⟨fun h => absurd hper h,
      fun _ => ⟨fun p hp => absurd (hsingle ▸ hp) (by simp), fun _ => hout⟩,
      fun h => absurd hsingle h⟩
  · have hout : parse_transactions text cm =
        (if !(per_fragment_pass text cm).isEmpty then per_fragment_pass text cm
         else match parse_single_transaction text none cm with
              | some single => [single]
              | none => []) := by
      simp only [parse_transactions, hsp]
      rfl
    by_cases hper : per_fragment_pass text cm = []
    · have hie : (per_fragment_pass text cm).isEmpty = true := by rw [hper]; rfl
      refine ⟨fun h => absurd hper h, fun _ => ⟨?_, ?_⟩, ?_⟩
      · intro p hp
        rw [hout, hie, hp]
        rfl
      · intro hp
        rw [hout, hie, hp]
        rfl
      · intro hsingle
        cases hps : parse_single_transaction text none cm with
        | none => exact absurd hps hsingle
        | some p =>
          have hq : parse_transactions text cm = [p] := by
            rw [hout, hie, hps]
            rfl
          rw [hq]
          simp
    · have hie : (per_fragment_pass text cm).isEmpty = false := by
        cases hq : (per_fragment_pass text cm).isEmpty
        · rfl
        · exact absurd (List.isEmpty_iff.mp hq) hper
      have heq : parse_transactions text cm = per_fragment_pass text cm := by
        rw [hout, hie]
        rfl
      exact ⟨fun _ => heq, fun h => absurd h hper, fun _ => by rw [heq]; exact hper⟩

/-- Witness for C3: a multi-entry message whose per-fragment pass succeeds
is returned unchanged, and a digit-free message yields the empty list via
the failed retry. -/
theorem parse_transactions_two_pass_witness :
    (per_fragment_pass (chars "ข้าว 50, กาแฟ 45") none ≠ [] ∧
      parse_transactions (chars "ข้าว 50, กาแฟ 45") none =
        per_fragment_pass (chars "ข้าว 50, กาแฟ 45") none) ∧
    (per_fragment_pass (chars "สวัสดี") none = [] ∧
      parse_single_transaction (chars "สวัสดี") none none = none ∧
      parse_transactions (chars "สวัสดี") none = []) :=
  ⟨⟨by decide, (parse_transactions_two_pass (chars "ข้าว 50, กาแฟ 45") none).1 (by decide)⟩,
   ⟨by decide, by decide,
    ((parse_transactions_two_pass (chars "สวัสดี") none).2.1 (by decide)).2 (by decide)⟩⟩

/-! ## Output invariants of the pipeline (C8) -/

/-- Every rule name of a supplied custom map is a non-empty label (true of
the built-in map and of every map `build_user_category_map` can produce,
since the add-category command rejects empty names). -/
def MapOK (cm : Option CatMap) : Prop :=
  ∀ m, cm = some m → ∀ p ∈ m, p.1 ≠ ""

/-- The fallback types that ever reach `parse_single_transaction` from the
pipeline: nothing, or one of the two transaction kinds. -/
def GoodFallback (fb : Option String) : Prop :=
  fb = none ∨ fb = some "income" ∨ fb = some "expense"

theorem CATEGORY_MAP_names_nonempty : ∀ p ∈ CATEGORY_MAP, p.1 ≠ "" := by decide

theorem detect_categoryWith_mem (text : Text) (t : String) :
    ∀ m : CatMap, detect_categoryWith text t m = "รายรับทั่วไป" ∨
      detect_categoryWith text t m = "รายจ่ายทั่วไป" ∨
      ∃ kws, (detect_categoryWith text t m, kws) ∈ m := by
  intro m
  induction m with
  | nil =>
    by_cases h : t = "income"
    · exact Or.inl (by simp [detect_categoryWith, h])
    · exact Or.inr (Or.inl (by simp [detect_categoryWith, h]))
  | cons p rest ih =>
    obtain ⟨name, kws⟩ := p
    by_cases h : kws.any (fun kw =>
        kwMatches kw (lowerList text) ((lowerList text).filter (fun c => c != ' '))) = true
    · refine Or.inr (Or.inr ⟨kws, ?_⟩)
      have : detect_categoryWith text t ((name, kws) :: rest) = name := by
        simp [detect_categoryWith, h]
      rw [this]
      exact List.mem_cons_self _ _
    · have : detect_categoryWith text t ((name, kws) :: rest) =
          detect_categoryWith text t rest := by
        simp [detect_categoryWith, h]
      rw [this]
      rcases ih with h1 | h1 | ⟨kws2, h1⟩
      · exact Or.inl h1
      · exact Or.inr (Or.inl h1)
      · exact Or.inr (Or.inr ⟨kws2, List.mem_cons_of_mem _ h1⟩)

theorem detect_category_ne_empty (text : Text) (t : String) (cm : Option CatMap)
    (hok : MapOK cm) : detect_category text t cm ≠ "" := by
  have hbuiltin : detect_categoryWith text t CATEGORY_MAP ≠ "" := by
    rcases detect_categoryWith_mem text t CATEGORY_MAP with h | h | ⟨kws, h⟩
    · rw [h]; decide
    · rw [h]; decide
    · exact CATEGORY_MAP_names_nonempty _ h
  unfold detect_category
  cases cm with
  | none => exact hbuiltin
  | some m =>
    cases m with
    | nil => exact hbuiltin
    | cons q qs =>
      simp only [List.isEmpty_cons, if_false, Bool.false_eq_true]
      rcases detect_categoryWith_mem text t (q :: qs) with h | h | ⟨kws, h⟩
      · rw [h]; decide
      · rw [h]; decide
      · exact hok (q :: qs) rfl _ h

theorem clean_note_length_le (t : Text) : (clean_note t).length ≤ 120 := by
  unfold clean_note
  exact List.length_take_le _ _

theorem parse_single_transaction_inv (text : Text) (fb : Option String)
    (cm : Option CatMap) (p : ParsedTransaction) (hfb : GoodFallback fb)
    (hok : MapOK cm) (h : parse_single_transaction text fb cm = some p) :
    (p.txn_type = "income" ∨ p.txn_type = "expense") ∧ 0 < p.amount ∧
      p.category ≠ "" ∧ p.note = clean_note text := by
  unfold parse_single_transaction at h
  cases hpa : parse_amount text with
  | none => rw [hpa] at h; cases h
  | some a =>
    rw [hpa] at h
    simp only [Option.some.injEq] at h
    have hfb2 : resolve_fallback fb = "income" ∨ resolve_fallback fb = "expense" := by
      rcases hfb with rfl | rfl | rfl
      · exact Or.inr rfl
      · exact Or.inl rfl
      · exact Or.inr rfl
    rw [← h]
    exact ⟨detect_type_mem text _ hfb2, parse_amount_pos text a hpa,
      detect_category_ne_empty text _ cm hok, rfl⟩

theorem infer_global_type_cases (text : Text) :
    infer_global_type text = none ∨ infer_global_type text = some "income" ∨
      infer_global_type text = some "expense" := by
  unfold infer_global_type
  by_cases h1 : ((split_entries text).filterMap type_hint).dedup.length = 1
  · rw [if_pos h1]
    cases hh : ((split_entries text).filterMap type_hint).head? with
    | none => exact Or.inl rfl
    | some a =>
      have ha : a ∈ (split_entries text).filterMap type_hint :=
        List.mem_of_mem_head? hh
      obtain ⟨entry, _, hentry⟩ := List.mem_filterMap.mp ha
      rcases type_hint_cases entry with he | he | he
      · rw [he] at hentry; cases hentry
      · rw [he] at hentry
        injection hentry with hae
        rw [← hae]
        exact Or.inr (Or.inl rfl)
      · rw [he] at hentry
        injection hentry with hae
        rw [← hae]
        exact Or.inr (Or.inr rfl)
  · rw [if_neg h1]
    by_cases h2 : 1 < ((split_entries text).filterMap type_hint).dedup.length
    · rw [if_pos h2]; exact Or.inl rfl
    · rw [if_neg h2]; exact type_hint_cases text

theorem entry_fallback_good (g : Option String)
    (hg : g = none ∨ g = some "income" ∨ g = some "expense") (entry : Text) :
    GoodFallback (entry_fallback g entry) := by
  unfold entry_fallback GoodFallback
  split_ifs
  · exact hg
  · exact Or.inl rfl

/-- C8.  Every transaction produced by the pipeline satisfies the data-model
invariants: its kind is exactly one of income/expense, its amount is
positive, its category label is non-empty (given rule names are non-empty,
as for the built-in map and every map the add-category command can build),
and its note is the whitespace-normalized originating fragment truncated to
at most 120 characters. -/
theorem parse_transactions_invariants (cm : Option CatMap) (hok : MapOK cm) :
    (∀ text fb p, GoodFallback fb → parse_single_transaction text fb cm = some p →
      (p.txn_type = "income" ∨ p.txn_type = "expense") ∧ 0 < p.amount ∧
        p.category ≠ "" ∧ p.note = clean_note text ∧ p.note.length ≤ 120) ∧
    (∀ text p, p ∈ parse_transactions text cm →
      (p.txn_type = "income" ∨ p.txn_type = "expense") ∧ 0 < p.amount ∧
        p.category ≠ "" ∧ p.note.length ≤ 120 ∧
        ∃ frag, (frag ∈ split_entries text ∨ frag = text) ∧ p.note = clean_note frag) := by
  constructor
  · intro text fb p hfb hp
    obtain ⟨h1, h2, h3, h4⟩ := parse_single_transaction_inv text fb cm p hfb hok hp
    exact ⟨h1, h2, h3, h4, h4 ▸ clean_note_length_le text⟩
  · intro text p hp
    unfold parse_transactions at hp
    by_cases hsp : (split_entries text).isEmpty = true
    · rw [if_pos hsp] at hp; cases hp
    · rw [if_neg hsp] at hp
      simp only at hp
      by_cases hper : (per_fragment_pass text cm).isEmpty
      · rw [hper] at hp
        simp only [Bool.not_true, Bool.false_eq_true, if_false] at hp
        cases hps : parse_single_transaction text none cm with
        | none =>
          rw [hps] at hp; cases hp
        | some single =>
          rw [hps] at hp
          have : p = single := by
            rcases List.mem_singleton.mp hp with rfl
            rfl
          obtain ⟨h1, h2, h3, h4⟩ :=
            parse_single_transaction_inv text none cm single (Or.inl rfl) hok hps
          rw [this]
          exact ⟨h1, h2, h3, h4 ▸ clean_note_length_le text, text, Or.inr rfl, h4⟩
      · rw [Bool.not_eq_true] at hper
        rw [hper] at hp
        simp only [Bool.not_false, if_true] at hp
        unfold per_fragment_pass at hp
        obtain ⟨entry, hmem, hps⟩ := List.mem_filterMap.mp hp
        have hgood : GoodFallback (entry_fallback (infer_global_type text) entry) :=
          entry_fallback_good _ (infer_global_type_cases text) entry
        obtain ⟨h1, h2, h3, h4⟩ :=
          parse_single_transaction_inv entry _ cm p hgood hok hps
        exact ⟨h1, h2, h3, h4 ▸ clean_note_length_le entry, entry, Or.inl hmem, h4⟩

/-- The transaction extracted from the message `"ข้าว 50"`. -/
def demoTx : ParsedTransaction := ⟨"expense", 50, "อาหาร", chars "ข้าว 50"⟩

/-- Witness for C8 at the message `"ข้าว 50"` with no custom map. -/
theorem parse_transactions_invariants_witness :
    (MapOK none ∧ demoTx ∈ parse_transactions (chars "ข้าว 50") none) ∧
    ((demoTx.txn_type = "income" ∨ demoTx.txn_type = "expense") ∧ 0 < demoTx.amount ∧
      demoTx.category ≠ "" ∧ demoTx.note.length ≤ 120 ∧
      ∃ frag, (frag ∈ split_entries (chars "ข้าว 50") ∨ frag = chars "ข้าว 50") ∧
        demoTx.note = clean_note frag) :=
  ⟨⟨fun _ h => (nomatch h), by decide⟩,
   (parse_transactions_invariants none (fun _ h => (nomatch h))).2 (chars "ข้าว 50") demoTx
     (by decide)⟩

/-! ## The merged rule map (C7, C9) -/

theorem lookupKW_eq_none_iff (n : String) :
    ∀ m : CatMap, lookupKW m n = none ↔ n ∉ m.map Prod.fst := by
  intro m
  induction m with
  | nil => simp [lookupKW]
  | cons p rest ih =>
    obtain ⟨name, kws⟩ := p
    by_cases h : name = n
    · simp [lookupKW, h]
    · simp [lookupKW, h, ih, Ne.symm h]

theorem lookupKW_append_of_none {m1 : CatMap} {n : String} (m2 : CatMap)
    (h : lookupKW m1 n = none) : lookupKW (m1 ++ m2) n = lookupKW m2 n := by
  induction m1 with
  | nil => rfl
  | cons p rest ih =>
    obtain ⟨name, kws⟩ := p
    by_cases hn : name = n
    · rw [show lookupKW ((name, kws) :: rest) n = some kws from if_pos hn] at h
      cases h
    · have h2 : lookupKW rest n = none := by
        rw [show lookupKW ((name, kws) :: rest) n = lookupKW rest n from if_neg hn] at h
        exact h
      show (if name = n then some kws else lookupKW (rest ++ m2) n) = lookupKW m2 n
      rw [if_neg hn]
      exact ih h2

theorem lookupKW_append_of_some {m1 : CatMap} {n : String} {v : List Text} (m2 : CatMap)
    (h : lookupKW m1 n = some v) : lookupKW (m1 ++ m2) n = some v := by
  induction m1 with
  | nil => cases h
  | cons p rest ih =>
    obtain ⟨name, kws⟩ := p
    by_cases hn : name = n
    · rw [show lookupKW ((name, kws) :: rest) n = some kws from if_pos hn] at h
      show (if name = n then some kws else lookupKW (rest ++ m2) n) = some v
      rw [if_pos hn]
      exact h
    · rw [show lookupKW ((name, kws) :: rest) n = lookupKW rest n from if_neg hn] at h
      show (if name = n then some kws else lookupKW (rest ++ m2) n) = some v
      rw [if_neg hn]
      exact ih h

theorem lookupKW_map_update_self (n : String) (k : List Text) :
    ∀ m : CatMap, (lookupKW m n).isSome →
      lookupKW (m.map (fun p => if p.1 = n then (n, k) else p)) n = some k := by
  intro m
  induction m with
  | nil => intro hs; cases hs
  | cons p rest ih =>
    intro hs
    obtain ⟨name, kws⟩ := p
    rw [List.map_cons]
    by_cases hn : name = n
    · show lookupKW ((if name = n then (n, k) else (name, kws)) :: _) n = some k
      rw [if_pos hn]
      exact if_pos rfl
    · show lookupKW ((if name = n then (n, k) else (name, kws)) :: _) n = some k
      rw [if_neg hn]
      show (if name = n then some kws else _) = some k
      rw [if_neg hn]
      apply ih
      rw [show lookupKW ((name, kws) :: rest) n = lookupKW rest n from if_neg hn] at hs
      exact hs

theorem lookupKW_map_update_other (n : String) (k : List Text) (n2 : String)
    (hne : n ≠ n2) :
    ∀ m : CatMap,
      lookupKW (m.map (fun p => if p.1 = n then (n, k) else p)) n2 = lookupKW m n2 := by
  intro m
  induction m with
  | nil => rfl
  | cons p rest ih =>
    obtain ⟨name, kws⟩ := p
    rw [List.map_cons]
    by_cases hn : name = n
    · show lookupKW ((if name = n then (n, k) else (name, kws)) :: _) n2 = _
      rw [if_pos hn]
      show (if n = n2 then some k else _) = _
      rw [if_neg hne]
      have hn2 : ¬ name = n2 := by rw [hn]; exact hne
      rw [show lookupKW ((name, kws) :: rest) n2 = lookupKW rest n2 from if_neg hn2]
      exact ih
    · show lookupKW ((if name = n then (n, k) else (name, kws)) :: _) n2 = _
      rw [if_neg hn]
      by_cases hn2 : name = n2
      · rw [show lookupKW ((name, kws) :: rest.map _) n2 = some kws from if_pos hn2,
          show lookupKW ((name, kws) :: rest) n2 = some kws from if_pos hn2]
      · rw [show lookupKW ((name, kws) :: rest.map _) n2 = lookupKW (rest.map _) n2 from
          if_neg hn2,
          show lookupKW ((name, kws) :: rest) n2 = lookupKW rest n2 from if_neg hn2]
        exact ih

theorem lookupKW_dictInsert_self (m : CatMap) (n : String) (k : List Text) :
    lookupKW (dictInsert m n k) n = some k := by
  unfold dictInsert
  by_cases hs : (lookupKW m n).isSome
  · rw [if_pos hs]
    exact lookupKW_map_update_self n k m hs
  · rw [if_neg hs]
    have hnone : lookupKW m n = none := by
      cases h : lookupKW m n
      · rfl
      · rw [h] at hs; cases hs rfl
    rw [lookupKW_append_of_none _ hnone]
    exact if_pos rfl

theorem lookupKW_dictInsert_other (m : CatMap) (n : String) (k : List Text)
    (n2 : String) (hne : n ≠ n2) : lookupKW (dictInsert m n k) n2 = lookupKW m n2 := by
  unfold dictInsert
  by_cases hs : (lookupKW m n).isSome
  · rw [if_pos hs]
    exact lookupKW_map_update_other n k n2 hne m
  · rw [if_neg hs]
    cases h2 : lookupKW m n2 with
    | some v => exact lookupKW_append_of_some _ h2
    | none =>
      rw [lookupKW_append_of_none _ h2]
      exact if_neg (fun hx => hne hx)

theorem lookupKW_foldl_not_mem :
    ∀ (customs : List (String × List Text)) (acc : CatMap) (n : String),
      n ∉ customs.map Prod.fst →
      lookupKW (customs.foldl (fun m p => dictInsert m p.1 p.2) acc) n = lookupKW acc n := by
  intro customs
  induction customs with
  | nil => intro acc n _; rfl
  | cons p rest ih =>
    intro acc n hn
    rw [List.map_cons] at hn
    have h1 : p.1 ≠ n := by
      intro h
      exact hn (by rw [← h]; exact List.mem_cons_self _ _)
    have h2 : n ∉ rest.map Prod.fst := fun h => hn (List.mem_cons_of_mem _ h)
    rw [List.foldl_cons, ih (dictInsert acc p.1 p.2) n h2,
      lookupKW_dictInsert_other acc p.1 p.2 n h1]

theorem lookupKW_foldl_mem :
    ∀ (customs : List (String × List Text)) (acc : CatMap) (name : String)
      (kws : List Text), (customs.map Prod.fst).Nodup → (name, kws) ∈ customs →
      lookupKW (customs.foldl (fun m p => dictInsert m p.1 p.2) acc) name = some kws := by
  intro customs
  induction customs with
  | nil => intro acc name kws _ hmem; cases hmem
  | cons p rest ih =>
    intro acc name kws hnd hmem
    rw [List.map_cons] at hnd
    have hnd2 := List.nodup_cons.mp hnd
    rw [List.foldl_cons]
    rcases List.mem_cons.mp hmem with heq | hmem2
    · obtain rfl : p = (name, kws) := heq.symm
      have hnot : name ∉ rest.map Prod.fst := hnd2.1
      rw [lookupKW_foldl_not_mem rest _ name hnot]
      exact lookupKW_dictInsert_self acc name kws
    · exact ih (dictInsert acc p.1 p.2) name kws hnd2.2 hmem2

/-- C7.  A custom rule whose name collides with a built-in category replaces
that category's keyword list in the merged map, so the resolver matches the
category through the custom keywords and no longer through the replaced
built-in ones: with the custom rule `อาหาร ↦ [pizza]`, the fragment
`"pizza 100"` resolves to `อาหาร` (it would not under the built-in map) and
`"ข้าว 50"` no longer does (it would under the built-in map). -/
theorem custom_rule_shadows_builtin :
    (∀ (customs : List (String × List Text)) (name : String) (kws : List Text),
      (customs.map Prod.fst).Nodup → (name, kws) ∈ customs →
      lookupKW (build_user_category_map customs) name = some kws) ∧
    lookupKW (build_user_category_map [("อาหาร", [chars "pizza"])]) "อาหาร" =
      some [chars "pizza"] ∧
    detect_categoryWith (chars "pizza 100") "expense"
      (build_user_category_map [("อาหาร", [chars "pizza"])]) = "อาหาร" ∧
    detect_categoryWith (chars "pizza 100") "expense" CATEGORY_MAP = "รายจ่ายทั่วไป" ∧
    detect_categoryWith (chars "ข้าว 50") "expense" CATEGORY_MAP = "อาหาร" ∧
    detect_categoryWith (chars "ข้าว 50") "expense"
      (build_user_category_map [("อาหาร", [chars "pizza"])]) = "รายจ่ายทั่วไป" :=
  ⟨fun customs name kws hnd hmem => lookupKW_foldl_mem customs CATEGORY_MAP name kws hnd hmem,
   by decide, by decide, by decide, by decide, by decide⟩

/-- Witness for C7's universally quantified part at a one-rule custom set
shadowing the built-in `อาหาร`. -/
theorem custom_rule_shadows_builtin_witness :
    (([("อาหาร", [chars "pizza"])].map Prod.fst).Nodup ∧
      ("อาหาร", [chars "pizza"]) ∈ [("อาหาร", [chars "pizza"])]) ∧
    lookupKW (build_user_category_map [("อาหาร", [chars "pizza"])]) "อาหาร" =
      some [chars "pizza"] :=
  ⟨⟨by decide, List.mem_singleton.mpr rfl⟩,
   custom_rule_shadows_builtin.1 [("อาหาร", [chars "pizza"])] "อาหาร" [chars "pizza"]
     (by decide) (List.mem_singleton.mpr rfl)⟩

theorem isNone_congr {α : Type} {a b : Option α} (h : (a = none) ↔ (b = none)) :
    a.isNone = b.isNone := by
  cases a <;> cases b <;> simp_all

theorem isNone_false_of_isSome {α : Type} {a : Option α} (h : a.isSome = true) :
    a.isNone = false := by
  cases a <;> simp_all

/-- Full characterization of folding dict assignments over an accumulator:
every accumulator entry stays in place, its keyword list replaced when the
custom list binds its name; the custom entries with fresh names are appended
in order. -/
theorem foldl_dictInsert_characterization :
    ∀ (customs : List (String × List Text)) (acc : CatMap),
      (acc.map Prod.fst).Nodup → (customs.map Prod.fst).Nodup →
      customs.foldl (fun m p => dictInsert m p.1 p.2) acc =
        acc.map (fun p => (p.1, (lookupKW customs p.1).getD p.2)) ++
          customs.filter (fun p => (lookupKW acc p.1).isNone) := by
  intro customs
  induction customs with
  | nil =>
    intro acc _ _
    show acc = acc.map (fun p => (p.1, (lookupKW [] p.1).getD p.2)) ++ []
    rw [List.append_nil]
    have : (fun p : String × List Text => (p.1, (lookupKW [] p.1).getD p.2)) =
        fun p => p := by
      funext p
      rfl
    rw [this]
    simp
  | cons hd rest ih =>
    intro acc hacc hnd
    obtain ⟨n0, k0⟩ := hd
    rw [List.map_cons] at hnd
    have hn0 : n0 ∉ rest.map Prod.fst := (List.nodup_cons.mp hnd).1
    have hrest : (rest.map Prod.fst).Nodup := (List.nodup_cons.mp hnd).2
    have hlr : lookupKW rest n0 = none := (lookupKW_eq_none_iff n0 rest).mpr hn0
    rw [List.foldl_cons]
    by_cases hs : (lookupKW acc n0).isSome = true
    · have hins : dictInsert acc n0 k0 =
          acc.map (fun p => if p.1 = n0 then (n0, k0) else p) := by
        unfold dictInsert
        rw [if_pos hs]
      have hkeys : (acc.map (fun p => if p.1 = n0 then (n0, k0) else p)).map Prod.fst
          = acc.map Prod.fst := by
        rw [List.map_map]
        apply List.map_congr_left
        intro p _
        by_cases h : p.1 = n0
        · simp [h]
        · simp [h]
      rw [hins, ih _ (by rw [hkeys]; exact hacc) hrest]
      have hfilterhead : (lookupKW acc (n0, k0).1).isNone = false :=
        isNone_false_of_isSome hs
      rw [List.filter_cons, hfilterhead]
      simp only [Bool.false_eq_true, if_false]
      congr 1
      · rw [List.map_map]
        apply List.map_congr_left
        intro p _
        by_cases h : p.1 = n0
        · simp [Function.comp, h, hlr, lookupKW]
        · simp [Function.comp, h, lookupKW, Ne.symm h]
      · apply List.filter_congr
        intro p _
        apply isNone_congr
        rw [lookupKW_eq_none_iff, lookupKW_eq_none_iff, hkeys]
    · have hins : dictInsert acc n0 k0 = acc ++ [(n0, k0)] := by
        unfold dictInsert
        rw [if_neg hs]
      have hnoneacc : lookupKW acc n0 = none := by
        cases h : lookupKW acc n0
        · rfl
        · rw [h] at hs; exact absurd rfl hs
      have hn0acc : n0 ∉ acc.map Prod.fst := (lookupKW_eq_none_iff n0 acc).mp hnoneacc
      have hacc2 : (((acc : CatMap) ++ [(n0, k0)]).map Prod.fst).Nodup := by
        rw [List.map_append]
        refine List.Nodup.append hacc (by simp) ?_
        intro a ha hb
        have : a = n0 := by simpa using hb
        rw [this] at ha
        exact hn0acc ha
      rw [hins, ih _ hacc2 hrest]
      have hfilterhead : (lookupKW acc (n0, k0).1).isNone = true := by
        show (lookupKW acc n0).isNone = true
        rw [hnoneacc]
        rfl
      rw [List.filter_cons, hfilterhead]
      simp only [if_true]
      rw [List.map_append]
      have hmapacc : acc.map (fun p => (p.1, (lookupKW rest p.1).getD p.2)) =
          acc.map (fun p => (p.1, (lookupKW ((n0, k0) :: rest) p.1).getD p.2)) := by
        apply List.map_congr_left
        intro p hp
        have hpn : ¬ n0 = p.1 := by
          intro h
          exact hn0acc (h ▸ List.mem_map_of_mem Prod.fst hp)
        have : lookupKW ((n0, k0) :: rest) p.1 = lookupKW rest p.1 := if_neg hpn
        rw [this]
      have hmapone : ([((n0 : String), (k0 : List Text))]).map
          (fun p => (p.1, (lookupKW rest p.1).getD p.2)) = [(n0, k0)] := by
        simp [hlr]
      have hfiltereq : rest.filter (fun p => (lookupKW (acc ++ [(n0, k0)]) p.1).isNone) =
          rest.filter (fun p => (lookupKW acc p.1).isNone) := by
        apply List.filter_congr
        intro p hp
        have hpn : ¬ n0 = p.1 := by
          intro h
          exact hn0 (h ▸ List.mem_map_of_mem Prod.fst hp)
        cases hlacc : lookupKW acc p.1 with
        | some v =>
          simp [lookupKW_append_of_some ([((n0 : String), k0)]) hlacc]
        | none =>
          simp [lookupKW_append_of_none ([((n0 : String), k0)]) hlacc, lookupKW, hpn]
      rw [hmapacc, hmapone, hfiltereq, List.append_assoc]
      rfl

/-- C9.  The merged per-user rule map lists every built-in category first,
in built-in declaration order — a colliding custom rule replaces the keyword
list but keeps the built-in's position — followed by the custom-only rules
in storage order; hence shadowing a built-in rule never changes its
first-match priority. -/
theorem build_user_category_map_order (customs : List (String × List Text))
    (hnd : (customs.map Prod.fst).Nodup) :
    build_user_category_map customs =
      CATEGORY_MAP.map (fun p => (p.1, (lookupKW customs p.1).getD p.2)) ++
        customs.filter (fun p => (lookupKW CATEGORY_MAP p.1).isNone) ∧
    (build_user_category_map customs).map Prod.fst =
      CATEGORY_MAP.map Prod.fst ++
        (customs.filter (fun p => (lookupKW CATEGORY_MAP p.1).isNone)).map Prod.fst := by
  have h := foldl_dictInsert_characterization customs CATEGORY_MAP (by decide) hnd
  refine ⟨h, ?_⟩
  show (build_user_category_map customs).map Prod.fst = _
  rw [show build_user_category_map customs =
    customs.foldl (fun m p => dictInsert m p.1 p.2) CATEGORY_MAP from rfl, h,
    List.map_append, List.map_map]
  congr 1

/-- Witness for C9 at a two-rule custom set: one collision (`อาหาร`) and one
fresh name (`พิเศษ`). -/
theorem build_user_category_map_order_witness :
    (([("อาหาร", [chars "pizza"]), ("พิเศษ", [chars "vip"])].map Prod.fst).Nodup) ∧
    build_user_category_map [("อาหาร", [chars "pizza"]), ("พิเศษ", [chars "vip"])] =
      CATEGORY_MAP.map (fun p =>
        (p.1, (lookupKW [("อาหาร", [chars "pizza"]), ("พิเศษ", [chars "vip"])] p.1).getD p.2)) ++
        [("อาหาร", [chars "pizza"]), ("พิเศษ", [chars "vip"])].filter
          (fun p => (lookupKW CATEGORY_MAP p.1).isNone) :=
  ⟨by decide,
   (build_user_category_map_order [("อาหาร", [chars "pizza"]), ("พิเศษ", [chars "vip"])]
     (by decide)).1⟩

end LungNan
